import Mathlib

/-!
Verification of the toy-socket-chat repository (Omochice/toy-socket-chat).

This file shallowly embeds the components named by the claims:

* the wire message codec `pkg/protocol` (protobuf flavour): `Message`,
  `Message.Encode`, `Message.Decode`, `messageTypeToProto`,
  `messageTypeFromProto`, together with a model of the protobuf wire
  format for the schema
  `message Message { MessageType type = 1; string sender = 2; string content = 3 }`
  with `MESSAGE_TYPE_TEXT = 0`, `MESSAGE_TYPE_JOIN = 1`, `MESSAGE_TYPE_LEAVE = 2`;
* the protocol detector `internal/server/protocol.go` (`detectProtocol`)
  and the inline detection in `UnifiedServer.handleConnection`
  (`internal/server/unified.go`);
* the hub `internal/chat/hub.go` (`Register`, `Unregister`, `ClientCount`,
  `Broadcast`, `HandleClient`) and `UnifiedServer.broadcast`;
* the manual WebSocket handshake (`upgradeWebSocket` / `computeAcceptKey`).

Byte strings are modelled as `List Nat` with entries below 256. Go strings
are converted with `strBytes`, which agrees with Go's `[]byte(s)` on the
ASCII strings that occur here.
-/

namespace ToyChat

/-! ## Wire message codec (`pkg/protocol/message.go`, protobuf flavour) -/

/-- MessageType from the source: TEXT, JOIN, LEAVE (iota 0, 1, 2). -/
inductive MessageType where
  | text
  | join
  | leave
  deriving DecidableEq, Repr

/-- Message from the source: Type, Sender, Content. Strings are byte lists. -/
structure Message where
  type : MessageType
  sender : List Nat
  content : List Nat
  deriving DecidableEq, Repr

/-- messageTypeToProto from the source: TEXT, JOIN, LEAVE map to the
protobuf enum numbers 0, 1, 2 (default arm returns TEXT's number). -/
def messageTypeToProto : MessageType → Nat
  | .text => 0
  | .join => 1
  | .leave => 2

/-- messageTypeFromProto from the source: 0, 1, 2 map to TEXT, JOIN,
LEAVE and every other enum number maps to TEXT (the default arm). -/
def messageTypeFromProto (k : Nat) : MessageType :=
  if k = 0 then .text
  else if k = 1 then .join
  else if k = 2 then .leave
  else .text

/-- Protobuf base-128 varint encoding of an unsigned value (models
`protowire.AppendVarint`): little-endian 7-bit groups, high bit set on
every byte except the last. -/
def encVarint (n : Nat) : List Nat :=
  if h : n < 128 then [n]
  else (n % 128 + 128) :: encVarint (n / 128)
  decreasing_by exact Nat.div_lt_self (by omega) (by omega)

/-- Varint decoding worker (models `protowire.ConsumeVarint`): at most
ten bytes are read, and on the tenth byte only the values 0 and 1 are
accepted (64-bit overflow check). `acc` is the value of the bytes already
read, `shift` the bit position of the next group, `i` the byte index. -/
def decVarintAux : List Nat → Nat → Nat → Nat → Option (Nat × List Nat)
  | [], _, _, _ => none
  | b :: rest, acc, shift, i =>
    if 10 ≤ i then none
    else if b % 128 = b then
      if i = 9 ∧ 1 < b then none
      else some (acc + b * 2 ^ shift, rest)
    else decVarintAux rest (acc + b % 128 * 2 ^ shift) (shift + 7) (i + 1)

/-- Varint decoding: returns the value and the unconsumed bytes. -/
def decVarint (bs : List Nat) : Option (Nat × List Nat) :=
  decVarintAux bs 0 0 0

theorem encVarint_cons (n : Nat) (h : ¬ n < 128) :
    encVarint n = (n % 128 + 128) :: encVarint (n / 128) := by
  rw [encVarint]
  simp [h]

theorem encVarint_base (n : Nat) (h : n < 128) : encVarint n = [n] := by
  rw [encVarint]
  simp [h]

theorem decVarintAux_enc (n : Nat) : ∀ i acc r, i ≤ 9 → n < 2 ^ (64 - 7 * i) →
    decVarintAux (encVarint n ++ r) acc (7 * i) i = some (acc + n * 2 ^ (7 * i), r) := by
  induction n using Nat.strong_induction_on with
  | _ n ih =>
    intro i acc r hi hn
    by_cases h : n < 128
    · rw [encVarint_base n h]
      simp only [List.cons_append, List.nil_append, decVarintAux]
      have h10 : ¬ 10 ≤ i := by omega
      have hmod : n % 128 = n := Nat.mod_eq_of_lt h
      by_cases h9 : i = 9
      · have h2 : n < 2 := by
          subst h9
          simpa using hn
        have hno : ¬ (i = 9 ∧ 1 < n) := by omega
        simp [h10, hmod, hno]
      · have hno : ¬ (i = 9 ∧ 1 < n) := by omega
        simp [h10, hmod, hno]
    · rw [encVarint_cons n h]
      simp only [List.cons_append, decVarintAux]
      have h10 : ¬ 10 ≤ i := by omega
      have hne : ¬ (n % 128 + 128) % 128 = n % 128 + 128 := by
        have := Nat.mod_lt n (show 0 < 128 by omega)
        omega
      have hi9 : i ≤ 8 := by
        rcases Nat.lt_or_ge i 9 with h' | h'
        · omega
        · exfalso
          have : i = 9 := by omega
          subst this
          have : n < 2 := by simpa using hn
          omega
      have hmod : (n % 128 + 128) % 128 = n % 128 := by omega
      have hdiv : n / 128 < 2 ^ (64 - 7 * (i + 1)) := by
        have h128 : (128 : Nat) = 2 ^ 7 := by norm_num
        rw [h128, Nat.div_lt_iff_lt_mul (by positivity), ← pow_add]
        have harith : 64 - 7 * (i + 1) + 7 = 64 - 7 * i := by omega
        rw [harith]
        exact hn
      have hrec := ih (n / 128) (Nat.div_lt_self (by omega) (by omega)) (i + 1)
        (acc + n % 128 * 2 ^ (7 * i)) r (by omega) hdiv
      have hshift : 7 * i + 7 = 7 * (i + 1) := by ring
      simp only [if_neg h10, if_neg hne, hmod, List.append_eq]
      rw [hshift, hrec]
      have hpow : (2 : Nat) ^ (7 * (i + 1)) = 2 ^ (7 * i) * 128 := by
        rw [show 7 * (i + 1) = 7 * i + 7 by ring, pow_add]
        norm_num
      have hn128 : 128 * (n / 128) + n % 128 = n := Nat.div_add_mod n 128
      have harith : acc + n % 128 * 2 ^ (7 * i) + n / 128 * (2 ^ (7 * i) * 128)
          = acc + (128 * (n / 128) + n % 128) * 2 ^ (7 * i) := by ring
      rw [hpow, harith, hn128]
      rw [if_neg (show ¬ n % 128 = n % 128 + 128 by omega)]

/-- Varint round trip: for every value below `2 ^ 64`, decoding the bytes
that encode it yields the value and the trailing bytes unchanged. -/
theorem decVarint_enc (n : Nat) (r : List Nat) (h : n < 2 ^ 64) :
    decVarint (encVarint n ++ r) = some (n, r) := by
  have := decVarintAux_enc n 0 0 r (by omega) (by simpa using h)
  simpa [decVarint] using this

/-- Fields of the protobuf `Message` record as they come off the wire:
`ptype` is the raw enum number (field 1), `sender` field 2, `content`
field 3. -/
structure PbFields where
  ptype : Nat
  sender : List Nat
  content : List Nat
  deriving DecidableEq, Repr

/-- Model of `proto.Marshal` for the schema `MessageType type = 1;
string sender = 2; string content = 3` (proto3 implicit presence):
zero-valued fields are omitted, the others are emitted in ascending
field order with tag bytes 0x08, 0x12, 0x1a and length-delimited
strings. -/
def pbMarshal (t : Nat) (s c : List Nat) : List Nat :=
  (if t = 0 then [] else 8 :: encVarint t) ++
    (if s = [] then [] else 18 :: (encVarint s.length ++ s)) ++
    (if c = [] then [] else 26 :: (encVarint c.length ++ c))

/-- Model of `proto.Unmarshal`'s field loop for the same schema: read a
tag varint, dispatch on field number and wire type, last value wins,
unknown fields are skipped by wire type. The enum value is truncated to
32 bits as Go converts the varint to an `int32`. `fuel` bounds the
number of fields; every field consumes at least one byte, so a fuel of
`bs.length` never runs out. -/
def pbLoop : Nat → List Nat → PbFields → Option PbFields
  | _, [], acc => some acc
  | 0, _ :: _, _ => none
  | fuel + 1, b :: bs, acc =>
    match decVarint (b :: bs) with
    | none => none
    | some (tag, rest) =>
      if tag / 8 = 0 then none
      else if tag / 8 = 1 ∧ tag % 8 = 0 then
        match decVarint rest with
        | none => none
        | some (v, rest2) => pbLoop fuel rest2 { acc with ptype := v % 2 ^ 32 }
      else if tag / 8 = 2 ∧ tag % 8 = 2 then
        match decVarint rest with
        | none => none
        | some (len, rest2) =>
          if len ≤ rest2.length then
            pbLoop fuel (rest2.drop len) { acc with sender := rest2.take len }
          else none
      else if tag / 8 = 3 ∧ tag % 8 = 2 then
        match decVarint rest with
        | none => none
        | some (len, rest2) =>
          if len ≤ rest2.length then
            pbLoop fuel (rest2.drop len) { acc with content := rest2.take len }
          else none
      else if tag % 8 = 0 then
        match decVarint rest with
        | none => none
        | some (_, rest2) => pbLoop fuel rest2 acc
      else if tag % 8 = 1 then
        if 8 ≤ rest.length then pbLoop fuel (rest.drop 8) acc else none
      else if tag % 8 = 2 then
        match decVarint rest with
        | none => none
        | some (len, rest2) =>
          if len ≤ rest2.length then pbLoop fuel (rest2.drop len) acc else none
      else if tag % 8 = 5 then
        if 4 ≤ rest.length then pbLoop fuel (rest.drop 4) acc else none
      else none

/-- Message.Encode from the source: convert with `toProto` (which uses
`messageTypeToProto`) and marshal. -/
def Message.Encode (m : Message) : List Nat :=
  pbMarshal (messageTypeToProto m.type) m.sender m.content

/-- Message.Decode from the source: unmarshal, then populate the record
with `fromProto` (which uses `messageTypeFromProto`); `none` models the
error return. -/
def Message.Decode (data : List Nat) : Option Message :=
  (pbLoop data.length data ⟨0, [], []⟩).map fun f =>
    ⟨messageTypeFromProto f.ptype, f.sender, f.content⟩

theorem encVarint_length_pos (n : Nat) : 0 < (encVarint n).length := by
  rw [encVarint]
  split <;> simp

theorem decVarint_small (b : Nat) (hb : b < 128) (l : List Nat) :
    decVarint (b :: l) = some (b, l) := by
  simp [decVarint, decVarintAux, Nat.mod_eq_of_lt hb]

theorem pbLoop_nil (fuel : Nat) (acc : PbFields) : pbLoop fuel [] acc = some acc := by
  cases fuel <;> rfl

theorem pbLoop_field1 (fuel t : Nat) (rest : List Nat) (acc : PbFields)
    (hf : 0 < fuel) (ht : t < 2 ^ 64) :
    pbLoop fuel (8 :: (encVarint t ++ rest)) acc
      = pbLoop (fuel - 1) rest { acc with ptype := t % 2 ^ 32 } := by
  obtain ⟨f, rfl⟩ : ∃ f, fuel = f + 1 := ⟨fuel - 1, by omega⟩
  have h8 : decVarint (8 :: (encVarint t ++ rest)) = some (8, encVarint t ++ rest) :=
    decVarint_small 8 (by omega) _
  simp only [pbLoop, h8, decVarint_enc t rest ht, Nat.add_sub_cancel]
  norm_num

theorem pbLoop_field2 (fuel : Nat) (s rest : List Nat) (acc : PbFields)
    (hf : 0 < fuel) (hs : s.length < 2 ^ 64) :
    pbLoop fuel (18 :: (encVarint s.length ++ (s ++ rest))) acc
      = pbLoop (fuel - 1) rest { acc with sender := s } := by
  obtain ⟨f, rfl⟩ : ∃ f, fuel = f + 1 := ⟨fuel - 1, by omega⟩
  have h18 : decVarint (18 :: (encVarint s.length ++ (s ++ rest)))
      = some (18, encVarint s.length ++ (s ++ rest)) :=
    decVarint_small 18 (by omega) _
  simp only [pbLoop, h18, decVarint_enc s.length (s ++ rest) hs, Nat.add_sub_cancel]
  norm_num [List.take_left, List.drop_left]

theorem pbLoop_field3 (fuel : Nat) (c rest : List Nat) (acc : PbFields)
    (hf : 0 < fuel) (hc : c.length < 2 ^ 64) :
    pbLoop fuel (26 :: (encVarint c.length ++ (c ++ rest))) acc
      = pbLoop (fuel - 1) rest { acc with content := c } := by
  obtain ⟨f, rfl⟩ : ∃ f, fuel = f + 1 := ⟨fuel - 1, by omega⟩
  have h26 : decVarint (26 :: (encVarint c.length ++ (c ++ rest)))
      = some (26, encVarint c.length ++ (c ++ rest)) :=
    decVarint_small 26 (by omega) _
  simp only [pbLoop, h26, decVarint_enc c.length (c ++ rest) hc, Nat.add_sub_cancel]
  norm_num [List.take_left, List.drop_left]

theorem pbLoop_field1_last (fuel t : Nat) (acc : PbFields)
    (hf : 0 < fuel) (ht : t < 2 ^ 64) :
    pbLoop fuel (8 :: encVarint t) acc = some { acc with ptype := t % 2 ^ 32 } := by
  have h : (8 : Nat) :: encVarint t = 8 :: (encVarint t ++ []) := by simp
  rw [h, pbLoop_field1 fuel t [] acc hf ht, pbLoop_nil]

theorem pbLoop_field2_last (fuel : Nat) (s : List Nat) (acc : PbFields)
    (hf : 0 < fuel) (hs : s.length < 2 ^ 64) :
    pbLoop fuel (18 :: (encVarint s.length ++ s)) acc = some { acc with sender := s } := by
  have h := pbLoop_field2 fuel s [] acc hf hs
  simpa [pbLoop_nil] using h

theorem pbLoop_field3_last (fuel : Nat) (c : List Nat) (acc : PbFields)
    (hf : 0 < fuel) (hc : c.length < 2 ^ 64) :
    pbLoop fuel (26 :: (encVarint c.length ++ c)) acc = some { acc with content := c } := by
  have h := pbLoop_field3 fuel c [] acc hf hc
  simpa [pbLoop_nil] using h

/-- Unmarshalling the bytes `pbMarshal` produces recovers the raw field
values (with the enum truncated to 32 bits), starting from the zero
record as `proto.Unmarshal` does. -/
theorem pbLoop_marshal (t : Nat) (s c : List Nat)
    (ht : t < 2 ^ 64) (hs : s.length < 2 ^ 64) (hc : c.length < 2 ^ 64) :
    pbLoop (pbMarshal t s c).length (pbMarshal t s c) ⟨0, [], []⟩
      = some ⟨t % 2 ^ 32, s, c⟩ := by
  by_cases ht0 : t = 0 <;> by_cases hse : s = [] <;> by_cases hco : c = [] <;>
    simp only [pbMarshal, ht0, hse, hco, eq_self_iff_true, if_true, if_false,
      List.nil_append, List.append_nil, List.cons_append, List.append_assoc]
  · simp [pbLoop_nil]
  · rw [pbLoop_field3_last _ c _ (by simp) hc]
    simp
  · rw [pbLoop_field2_last _ s _ (by simp) hs]
    simp
  · rw [pbLoop_field2 _ s _ _ (by simp) hs]
    rw [pbLoop_field3_last _ c _
      (by simp only [List.length_cons, List.length_append]; omega) hc]
    simp
  · rw [pbLoop_field1_last _ t _ (by simp) ht]
  · rw [pbLoop_field1 _ t _ _ (by simp) ht]
    rw [pbLoop_field3_last _ c _
      (by simp only [List.length_cons, List.length_append]; omega) hc]
  · rw [pbLoop_field1 _ t _ _ (by simp) ht]
    rw [pbLoop_field2_last _ s _
      (by simp only [List.length_cons, List.length_append]; omega) hs]
  · rw [pbLoop_field1 _ t _ _ (by simp) ht]
    rw [pbLoop_field2 _ s _ _
      (by simp only [List.length_cons, List.length_append]; omega) hs]
    rw [pbLoop_field3_last _ c _
      (by simp only [List.length_cons, List.length_append]; omega) hc]

/-- Claim C1: for every valid Message m (kind one of TEXT, JOIN, LEAVE —
all three constructors of `MessageType` — and arbitrary sender and
content byte strings), decoding the bytes produced by encoding m yields
a Message equal to m: `Decode (Encode m) = m`. -/
theorem decode_encode_roundtrip (m : Message)
    (hsb : ∀ b ∈ m.sender, b < 256) (hcb : ∀ b ∈ m.content, b < 256)
    (hs : m.sender.length < 2 ^ 64) (hc : m.content.length < 2 ^ 64) :
    Message.Decode (Message.Encode m) = some m := by
  obtain ⟨t, s, c⟩ := m
  have h := pbLoop_marshal (messageTypeToProto t) s c
    (by cases t <;> norm_num [messageTypeToProto]) hs hc
  simp only [Message.Encode, Message.Decode] at *
  rw [h]
  cases t <;> simp [messageTypeFromProto, messageTypeToProto,
    Nat.mod_eq_of_lt (show (1 : Nat) < 2 ^ 32 by norm_num),
    Nat.mod_eq_of_lt (show (2 : Nat) < 2 ^ 32 by norm_num)]

/-- Witness for C1 at the message JOIN with sender byte 104 and content
bytes 105, 33. -/
theorem decode_encode_roundtrip_witness :
    Message.Decode (Message.Encode ⟨.join, [104], [105, 33]⟩)
      = some ⟨.join, [104], [105, 33]⟩ :=
  decode_encode_roundtrip ⟨.join, [104], [105, 33]⟩
    (by decide) (by decide) (by decide) (by decide)

/-- Claim C2: decoding any wire message whose kind field carries an enum
number outside the three defined ones (0 TEXT, 1 JOIN, 2 LEAVE) succeeds
— no error — and yields a Message whose kind is TEXT. The hypothesis
`k < 2 ^ 32` restricts to the canonical encodings of the `int32` enum
values. -/
theorem decode_unknown_kind (k : Nat) (s c : List Nat)
    (hk : k < 2 ^ 32) (h0 : k ≠ 0) (h1 : k ≠ 1) (h2 : k ≠ 2)
    (hs : s.length < 2 ^ 64) (hc : c.length < 2 ^ 64) :
    Message.Decode (pbMarshal k s c) = some ⟨.text, s, c⟩ := by
  have h := pbLoop_marshal k s c (by omega) hs hc
  have hmt : messageTypeFromProto (k % 2 ^ 32) = .text := by
    rw [Nat.mod_eq_of_lt hk]
    simp [messageTypeFromProto, h0, h1, h2]
  simp only [Message.Decode]
  rw [h, Option.map_some', hmt]

/-- Witness for C2 at kind number 7 with sender byte 120 and empty
content. -/
theorem decode_unknown_kind_witness :
    Message.Decode (pbMarshal 7 [120] []) = some ⟨.text, [120], []⟩ :=
  decode_unknown_kind 7 [120] [] (by decide) (by decide) (by decide) (by decide)
    (by decide) (by decide)

/-! ## Protocol detection (`internal/server/protocol.go` and
`UnifiedServer.handleConnection` in `internal/server/unified.go`) -/

/-- Protocol classification from `internal/server/protocol.go`. -/
inductive ProtocolType where
  | tcp
  | http
  deriving DecidableEq, Repr

/-- Byte image of a Go string literal (models `[]byte(s)`; identical to
UTF-8 for the ASCII strings used by the detector and the handshake). -/
def strBytes (s : String) : List Nat := s.data.map Char.toNat

/-- detectProtocol from `internal/server/protocol.go`: peek the first 4
bytes — a peek error (stream shorter than 4 bytes) is returned to the
caller, modelled as `none` — and classify as HTTP exactly when they are
`GET `, `POST`, `PUT ` or `HEAD` (each pattern is 4 bytes long, so
`bytes.HasPrefix` on a 4-byte peek is equality); every other stream is
classified TCP. -/
def detectProtocol (stream : List Nat) : Option ProtocolType :=
  if stream.length < 4 then none
  else if stream.take 4 = strBytes "GET " ∨ stream.take 4 = strBytes "POST" ∨
      stream.take 4 = strBytes "PUT " ∨ stream.take 4 = strBytes "HEAD" then
    some .http
  else some .tcp

/-- The eight ASCII request-line heads recognized by
`UnifiedServer.handleConnection`. -/
def httpMethodHeads : List (List Nat) :=
  [strBytes "GET ", strBytes "POST", strBytes "PUT ", strBytes "HEAD",
   strBytes "OPTI", strBytes "PATC", strBytes "DELE", strBytes "CONN"]

/-- Inline detection in `UnifiedServer.handleConnection`
(`internal/server/unified.go`): peek the first 4 bytes (a peek error
closes the connection, modelled as `none`) and classify as HTTP exactly
when they are one of the eight method heads. -/
def handleConnectionKind (stream : List Nat) : Option ProtocolType :=
  if stream.length < 4 then none
  else if stream.take 4 ∈ httpMethodHeads then some .http
  else some .tcp

/-- Counterexample to claim C3 as stated: the first 4 bytes of an
`OPTIONS` request line are among the eight ASCII heads the claim lists,
yet the standalone `detectProtocol` helper classifies the connection as
a raw-stream (TCP) peer, not as an upgrade-handshake attempt. -/
theorem detectProtocol_options_counterexample :
    detectProtocol (strBytes "OPTIONS / HTTP/1.1") = some ProtocolType.tcp ∧
    (strBytes "OPTIONS / HTTP/1.1").take 4 ∈ httpMethodHeads := by
  decide

/-- Claim C3 as amended: the unified single-port server's detector
(`UnifiedServer.handleConnection`) classifies a stream as an
upgrade-handshake attempt if and only if its first 4 bytes are one of
the eight ASCII heads `GET `, `POST`, `PUT `, `HEAD`, `OPTI`, `PATC`,
`DELE`, `CONN`, and as a raw-stream peer otherwise; the standalone
`detectProtocol` helper used by the `Server` variant recognizes only the
four heads `GET `, `POST`, `PUT `, `HEAD` and classifies the remaining
four method heads as raw-stream peers too. -/
theorem protocol_detection_amended (stream : List Nat) (h : 4 ≤ stream.length) :
    (handleConnectionKind stream = some ProtocolType.http ↔
        stream.take 4 ∈ httpMethodHeads) ∧
    (handleConnectionKind stream = some ProtocolType.tcp ↔
        stream.take 4 ∉ httpMethodHeads) ∧
    (detectProtocol stream = some ProtocolType.http ↔
        (stream.take 4 = strBytes "GET " ∨ stream.take 4 = strBytes "POST" ∨
          stream.take 4 = strBytes "PUT " ∨ stream.take 4 = strBytes "HEAD")) := by
  have hlen : ¬ stream.length < 4 := by omega
  refine ⟨?_, ?_, ?_⟩
  · rw [handleConnectionKind, if_neg hlen]
    split <;> simp_all
  · rw [handleConnectionKind, if_neg hlen]
    split <;> simp_all
  · rw [detectProtocol, if_neg hlen]
    split <;> simp_all

/-- Witness for the amended C3 at a concrete `OPTIONS` stream: long
enough to peek, its head is among the eight, and the unified detector
classifies it as an upgrade attempt. -/
theorem protocol_detection_amended_witness :
    4 ≤ (strBytes "OPTIONS / HTTP/1.1").length ∧
      handleConnectionKind (strBytes "OPTIONS / HTTP/1.1") = some ProtocolType.http :=
  ⟨by decide,
    (protocol_detection_amended (strBytes "OPTIONS / HTTP/1.1") (by decide)).1.mpr
      (by decide)⟩

/-! ## Hub membership (`internal/chat/hub.go`) -/

/-- Hub from the source: the `clients map[*Client]bool` registry holds
each live client pointer at most once, so it is a finite set of client
identities (the lock only serializes access and has no sequential
effect). -/
structure Hub where
  clients : Finset Nat
  deriving DecidableEq

/-- Hub.Register from the source: `h.clients[client] = true` — a map
insert. -/
def Hub.Register (h : Hub) (c : Nat) : Hub := ⟨insert c h.clients⟩

/-- Hub.Unregister from the source: `delete(h.clients, client)` — a map
delete, a no-op when the key is absent. -/
def Hub.Unregister (h : Hub) (c : Nat) : Hub := ⟨h.clients.erase c⟩

/-- Hub.ClientCount from the source: `len(h.clients)`. -/
def Hub.ClientCount (h : Hub) : Nat := h.clients.card

/-- Counterexample to claim C5 as stated: registering a client that is
already a member does not make ClientCount one greater — on the hub
whose sole member is client 0, registering 0 again leaves the count at
1. -/
theorem register_member_counterexample :
    ((Hub.mk {0}).Register 0).ClientCount ≠ (Hub.mk {0}).ClientCount + 1 := by
  decide

/-- Claim C5 as amended: registering a client that is not yet a member
makes ClientCount one greater; unregistering a member makes it one
less; unregistering an absent client changes nothing (a no-op, not an
error). -/
theorem register_unregister_count (h : Hub) (c : Nat) :
    (c ∉ h.clients → (h.Register c).ClientCount = h.ClientCount + 1) ∧
    (c ∈ h.clients → (h.Unregister c).ClientCount = h.ClientCount - 1) ∧
    (c ∉ h.clients → h.Unregister c = h) := by
  refine ⟨fun hc => ?_, fun hc => ?_, fun hc => ?_⟩
  · simp [Hub.Register, Hub.ClientCount, Finset.card_insert_of_not_mem hc]
  · simp [Hub.Unregister, Hub.ClientCount, Finset.card_erase_of_mem hc]
  · simp [Hub.Unregister, Finset.erase_eq_of_not_mem hc]

/-- Witness for the amended C5 on the two-member hub {3, 5}: registering
the fresh client 7 yields count 3, unregistering the member 3 yields
count 1, and unregistering the absent 7 is a no-op. -/
theorem register_unregister_count_witness :
    ((Hub.mk {3, 5}).Register 7).ClientCount = (Hub.mk {3, 5}).ClientCount + 1 ∧
    ((Hub.mk {3, 5}).Unregister 3).ClientCount = (Hub.mk {3, 5}).ClientCount - 1 ∧
    (Hub.mk {3, 5}).Unregister 7 = Hub.mk {3, 5} :=
  ⟨(register_unregister_count (Hub.mk {3, 5}) 7).1 (by decide),
   (register_unregister_count (Hub.mk {3, 5}) 3).2.1 (by decide),
   (register_unregister_count (Hub.mk {3, 5}) 7).2.2 (by decide)⟩

/-- Claim C10: Register is idempotent — registering an already-present
client leaves the membership set (and hence ClientCount) unchanged, and
the count increases by exactly 1 only under the precondition that the
client was not already registered. -/
theorem register_idempotent (h : Hub) (c : Nat) :
    (c ∈ h.clients → h.Register c = h ∧ (h.Register c).ClientCount = h.ClientCount) ∧
    (c ∉ h.clients → (h.Register c).ClientCount = h.ClientCount + 1) := by
  constructor
  · intro hc
    have : h.Register c = h := by
      simp [Hub.Register, Finset.insert_eq_self.mpr hc]
    exact ⟨this, by rw [this]⟩
  · intro hc
    simp [Hub.Register, Hub.ClientCount, Finset.card_insert_of_not_mem hc]

/-- Witness for C10: on the hub {4}, registering the member 4 again
changes nothing, while registering the fresh 6 adds one. -/
theorem register_idempotent_witness :
    (Hub.mk {4}).Register 4 = Hub.mk {4} ∧
    ((Hub.mk {4}).Register 6).ClientCount = (Hub.mk {4}).ClientCount + 1 :=
  ⟨((register_idempotent (Hub.mk {4}) 4).1 (by decide)).1,
   (register_idempotent (Hub.mk {4}) 6).2 (by decide)⟩

/-! ## Broadcast (`Hub.Broadcast` in `internal/chat` and
`UnifiedServer.broadcast` in `internal/server/unified.go`) -/

/-- Outgoing queue capacity from the source: `make(chan []byte, 10)`. -/
def outgoingCap : Nat := 10

/-- A connected client as the broadcast path sees it: an identity (the
pointer) and the buffered contents of its `outgoing` channel. -/
structure BClient where
  id : Nat
  outgoing : List (List Nat)
  deriving DecidableEq, Repr

/-- Hub.Broadcast from the chat hub: under the shared lock, for every
registered client other than the sender perform a non-blocking channel
send — enqueue when the buffer has room, otherwise fall through the
empty `default` arm (the payload is dropped for that client and nothing
is logged). Returns the updated clients and the emitted log lines. -/
def hubBroadcast (data : List Nat) (sender : Nat) (clients : List BClient) :
    List BClient × List String :=
  (clients.map fun c =>
      if c.id ≠ sender ∧ c.outgoing.length < outgoingCap then
        { c with outgoing := c.outgoing ++ [data] }
      else c,
   [])

/-- UnifiedServer.broadcast from `internal/server/unified.go`: the same
non-blocking fan-out, but the `default` arm logs
"Client channel full, skipping" for every non-sender whose buffer is
full. -/
def unifiedBroadcast (data : List Nat) (sender : Nat) (clients : List BClient) :
    List BClient × List String :=
  (clients.map fun c =>
      if c.id ≠ sender ∧ c.outgoing.length < outgoingCap then
        { c with outgoing := c.outgoing ++ [data] }
      else c,
   (clients.filter fun c =>
      decide (c.id ≠ sender ∧ outgoingCap ≤ c.outgoing.length)).map
     fun _ => "Client channel full, skipping")

/-- Elements of a list zipped with its image under a map are pairs of an
element and its image. -/
theorem zip_map_mem {α β : Type _} (f : α → β) (l : List α) :
    ∀ p ∈ l.zip (l.map f), p.1 ∈ l ∧ p.2 = f p.1 := by
  induction l with
  | nil => simp
  | cons a t ih =>
    intro p hp
    simp only [List.map_cons, List.zip_cons_cons, List.mem_cons] at hp
    rcases hp with h | h
    · subst h
      simp
    · obtain ⟨h1, h2⟩ := ih p h
      exact ⟨List.mem_cons_of_mem _ h1, h2⟩

/-- Counterexample to claim C4 as stated: a broadcast through the chat
hub's `Hub.Broadcast` to a client whose queue holds 10 payloads drops
the payload (the queue is unchanged) but emits no log line at all — the
chat hub's `default` arm is empty, so the drop is not logged there. -/
theorem hubBroadcast_silent_drop_counterexample :
    (hubBroadcast [7] 0 [⟨1, List.replicate 10 [9]⟩]).1
        = [⟨1, List.replicate 10 [9]⟩] ∧
    (hubBroadcast [7] 0 [⟨1, List.replicate 10 [9]⟩]).2 = [] := by
  decide

/-- Claim C4 as amended: on every broadcast call, a non-sender member
with a full queue keeps its queue unchanged (the payload is dropped for
it), the call still completes with one result per member (it never
blocks), and the payload is still enqueued to every other member whose
queue has space; the drop is logged (one line per full member) by
`UnifiedServer.broadcast`, while the chat hub's `Hub.Broadcast` drops
silently. -/
theorem broadcast_full_queue_amended (data : List Nat) (s : Nat)
    (clients : List BClient) :
    (hubBroadcast data s clients).1.length = clients.length ∧
    (unifiedBroadcast data s clients).1 = (hubBroadcast data s clients).1 ∧
    (hubBroadcast data s clients).2 = [] ∧
    (unifiedBroadcast data s clients).2.length
        = clients.countP (fun c => decide (c.id ≠ s ∧ outgoingCap ≤ c.outgoing.length)) ∧
    ∀ p ∈ clients.zip (hubBroadcast data s clients).1,
      (p.1.id = s → p.2 = p.1) ∧
      (p.1.id ≠ s → outgoingCap ≤ p.1.outgoing.length → p.2 = p.1) ∧
      (p.1.id ≠ s → p.1.outgoing.length < outgoingCap →
        p.2.outgoing = p.1.outgoing ++ [data]) := by
  refine ⟨by simp [hubBroadcast], rfl, rfl, ?_, ?_⟩
  · simp only [unifiedBroadcast, List.length_map]
    rw [← List.countP_eq_length_filter]
  · intro p hp
    rw [hubBroadcast] at hp
    obtain ⟨hmem, h2⟩ := zip_map_mem _ clients p hp
    refine ⟨fun hcs => ?_, fun hcs hfull => ?_, fun hcs hroom => ?_⟩
    · rw [h2]
      simp [hcs]
    · rw [h2]
      simp [hcs, Nat.not_lt.mpr hfull]
    · rw [h2]
      simp [hcs, hroom]

/-- Witness for the amended C4 on three clients: member 1 has a full
queue and is skipped (silently by the hub, with one log line by the
unified server), member 2 has room and receives the payload, the sender
0 receives nothing. -/
theorem broadcast_full_queue_amended_witness :
    (hubBroadcast [7] 0 [⟨0, []⟩, ⟨1, List.replicate 10 [9]⟩, ⟨2, [[5]]⟩]).1.length = 3 ∧
    (hubBroadcast [7] 0 [⟨0, []⟩, ⟨1, List.replicate 10 [9]⟩, ⟨2, [[5]]⟩]).2 = [] ∧
    (unifiedBroadcast [7] 0 [⟨0, []⟩, ⟨1, List.replicate 10 [9]⟩, ⟨2, [[5]]⟩]).2.length = 1 :=
  ⟨(broadcast_full_queue_amended [7] 0 _).1,
   (broadcast_full_queue_amended [7] 0 _).2.2.1,
   (broadcast_full_queue_amended [7] 0
      [⟨0, []⟩, ⟨1, List.replicate 10 [9]⟩, ⟨2, [[5]]⟩]).2.2.2.1.trans (by decide)⟩

/-- Claim C6: with at least three registered clients, none of whose
queues are full, `Hub.Broadcast` enqueues the payload onto the outbound
queue of every currently-registered client other than the sender, and
onto no other queue — the result has exactly one entry per member, the
sender's entry (and only the sender's) is untouched. -/
theorem broadcast_delivers_to_all_but_sender (data : List Nat) (s : Nat)
    (clients : List BClient) (_h3 : 3 ≤ clients.length)
    (hroom : ∀ c ∈ clients, c.id ≠ s → c.outgoing.length < outgoingCap) :
    (hubBroadcast data s clients).1.length = clients.length ∧
    ∀ p ∈ clients.zip (hubBroadcast data s clients).1,
      (p.1.id ≠ s → p.2.outgoing = p.1.outgoing ++ [data]) ∧
      (p.1.id = s → p.2 = p.1) := by
  refine ⟨by simp [hubBroadcast], ?_⟩
  intro p hp
  rw [hubBroadcast] at hp
  obtain ⟨hmem, h2⟩ := zip_map_mem _ clients p hp
  refine ⟨fun hcs => ?_, fun hcs => ?_⟩
  · rw [h2]
    simp [hcs, hroom p.1 hmem hcs]
  · rw [h2]
    simp [hcs]

/-- Witness for C6 with the three clients 0, 1, 2 and sender 1: clients
0 and 2 receive the payload, client 1 does not. -/
theorem broadcast_delivers_witness :
    (hubBroadcast [3] 1 [⟨0, []⟩, ⟨1, [[9]]⟩, ⟨2, [[5]]⟩]).1.length = 3 ∧
    ∀ p ∈ [⟨0, []⟩, ⟨1, [[9]]⟩, ⟨2, [[5]]⟩].zip
        (hubBroadcast [3] 1 [⟨0, []⟩, ⟨1, [[9]]⟩, ⟨2, [[5]]⟩]).1,
      (p.1.id ≠ 1 → p.2.outgoing = p.1.outgoing ++ [[3]]) ∧
      (p.1.id = 1 → p.2 = p.1) :=
  broadcast_delivers_to_all_but_sender [3] 1 [⟨0, []⟩, ⟨1, [[9]]⟩, ⟨2, [[5]]⟩]
    (by decide) (by decide)

/-! ## Client read loop (`Hub.HandleClient` in the chat hub) -/

/-- Outcome of one `client.Conn.Read(ctx)` call: a frame's bytes, a
clean close (`io.EOF`), or any other read error. -/
inductive ReadResult where
  | bytes (data : List Nat)
  | closed
  | failed
  deriving DecidableEq, Repr

/-- State that `Hub.HandleClient` manipulates: the hub membership (for
the deferred `Unregister`), the client's identity, the mutable
`Username`, the payloads passed to `Broadcast` with this client as
sender (in order), the number of log lines printed, and whether the
deferred `Conn.Close` has run. -/
structure Session where
  hub : Hub
  clientId : Nat
  username : List Nat
  broadcasts : List (List Nat)
  logs : Nat
  connClosed : Bool
  deriving DecidableEq

/-- The deferred block of `HandleClient`: `h.Unregister(client)` then
`client.Conn.Close()`. -/
def finishSession (st : Session) : Session :=
  { st with hub := st.hub.Unregister st.clientId, connClosed := true }

/-- Hub.HandleClient's read loop over the sequence of read results the
connection yields: a read error ends the loop (logging unless it is
EOF) and runs the deferred cleanup; a frame that fails to decode is
logged and the loop continues; JOIN sets the username, logs, and
rebroadcasts the raw frame; TEXT logs and rebroadcasts; LEAVE logs,
rebroadcasts, and then returns, triggering the deferred cleanup. An
exhausted list means the loop is still blocked in `Read`. -/
def runHandleClient (st : Session) : List ReadResult → Session
  | [] => st
  | .closed :: _ => finishSession st
  | .failed :: _ => finishSession { st with logs := st.logs + 1 }
  | .bytes data :: rest =>
    match Message.Decode data with
    | none => runHandleClient { st with logs := st.logs + 1 } rest
    | some msg =>
      match msg.type with
      | .join =>
        runHandleClient
          { st with username := msg.sender, logs := st.logs + 1, broadcasts := st.broadcasts ++ [data] }
          rest
      | .leave =>
        finishSession { st with logs := st.logs + 1, broadcasts := st.broadcasts ++ [data] }
      | .text =>
        runHandleClient
          { st with logs := st.logs + 1, broadcasts := st.broadcasts ++ [data] }
          rest

/-- Claim C8: a frame whose bytes fail to decode is logged and the read
loop continues — the connection is not closed, the client is not
unregistered, nothing is broadcast for it — and a subsequent well-formed
TEXT frame from the same client is still decoded and broadcast
normally. -/
theorem malformed_frame_continues (bad good u c : List Nat)
    (rest : List ReadResult) (st : Session)
    (hbad : Message.Decode bad = none)
    (hgood : Message.Decode good = some ⟨.text, u, c⟩) :
    runHandleClient st (.bytes bad :: rest)
        = runHandleClient { st with logs := st.logs + 1 } rest ∧
    runHandleClient st (.bytes bad :: .bytes good :: rest)
        = runHandleClient
            { st with logs := st.logs + 1 + 1, broadcasts := st.broadcasts ++ [good] }
            rest := by
  constructor
  · simp [runHandleClient, hbad]
  · simp [runHandleClient, hbad, hgood]

/-- Witness for C8: after the truncated frame `[8]` (whose decode
fails), the session state only gains a log line, and the following
well-formed TEXT frame is broadcast. -/
theorem malformed_frame_continues_witness :
    runHandleClient ⟨⟨{3}⟩, 3, [], [], 0, false⟩ [.bytes [8]]
        = runHandleClient ⟨⟨{3}⟩, 3, [], [], 1, false⟩ [] ∧
    runHandleClient ⟨⟨{3}⟩, 3, [], [], 0, false⟩
          [.bytes [8], .bytes [18, 1, 120, 26, 1, 104]]
        = runHandleClient ⟨⟨{3}⟩, 3, [], [[18, 1, 120, 26, 1, 104]], 2, false⟩ [] :=
  malformed_frame_continues [8] [18, 1, 120, 26, 1, 104] [120] [104] []
    ⟨⟨{3}⟩, 3, [], [], 0, false⟩ (by decide) (by decide)

/-- Claim C9: a frame that decodes to a LEAVE message is rebroadcast
(the raw frame is appended to the broadcast list) and the read loop then
terminates: the deferred cleanup unregisters the client — it is no
longer a member, and when it was a member the ClientCount drops by one —
and closes the connection. -/
theorem leave_frame_terminates (data u c : List Nat)
    (rest : List ReadResult) (st : Session)
    (hleave : Message.Decode data = some ⟨.leave, u, c⟩) :
    runHandleClient st (.bytes data :: rest)
        = finishSession
            { st with logs := st.logs + 1, broadcasts := st.broadcasts ++ [data] } ∧
    (runHandleClient st (.bytes data :: rest)).broadcasts
        = st.broadcasts ++ [data] ∧
    (runHandleClient st (.bytes data :: rest)).connClosed = true ∧
    st.clientId ∉ (runHandleClient st (.bytes data :: rest)).hub.clients ∧
    (st.clientId ∈ st.hub.clients →
      (runHandleClient st (.bytes data :: rest)).hub.ClientCount
        = st.hub.ClientCount - 1) := by
  have hrun : runHandleClient st (.bytes data :: rest)
      = finishSession
          { st with logs := st.logs + 1, broadcasts := st.broadcasts ++ [data] } := by
    simp [runHandleClient, hleave]
  refine ⟨hrun, ?_, ?_, ?_, fun hmem => ?_⟩
  · rw [hrun]
    simp [finishSession]
  · rw [hrun]
    simp [finishSession]
  · rw [hrun]
    simp [finishSession, Hub.Unregister]
  · rw [hrun]
    simp [finishSession, Hub.Unregister, Hub.ClientCount,
      Finset.card_erase_of_mem hmem]

/-- Witness for C9: the LEAVE frame of user "x" (bytes `[8,2,18,1,120]`)
broadcast-then-terminates a session of client 3 on the hub {3, 9}: the
count drops from 2 to 1 and the connection is closed. -/
theorem leave_frame_terminates_witness :
    (runHandleClient ⟨⟨{3, 9}⟩, 3, [120], [], 0, false⟩
        [.bytes [8, 2, 18, 1, 120]]).broadcasts = [[8, 2, 18, 1, 120]] ∧
    (runHandleClient ⟨⟨{3, 9}⟩, 3, [120], [], 0, false⟩
        [.bytes [8, 2, 18, 1, 120]]).connClosed = true ∧
    (runHandleClient ⟨⟨{3, 9}⟩, 3, [120], [], 0, false⟩
        [.bytes [8, 2, 18, 1, 120]]).hub.ClientCount
      = (Hub.mk {3, 9}).ClientCount - 1 :=
  ⟨(leave_frame_terminates [8, 2, 18, 1, 120] [120] [] []
      ⟨⟨{3, 9}⟩, 3, [120], [], 0, false⟩ (by decide)).2.1,
   (leave_frame_terminates [8, 2, 18, 1, 120] [120] [] []
      ⟨⟨{3, 9}⟩, 3, [120], [], 0, false⟩ (by decide)).2.2.1,
   (leave_frame_terminates [8, 2, 18, 1, 120] [120] [] []
      ⟨⟨{3, 9}⟩, 3, [120], [], 0, false⟩ (by decide)).2.2.2.2 (by decide)⟩

/-! ## WebSocket handshake (`upgradeWebSocket` / `computeAcceptKey` in
`internal/server/websocket.go`) -/

/-- Truncation to a 32-bit word. -/
def w32 (n : Nat) : Nat := n % 2 ^ 32

/-- Left rotation of a 32-bit word by `s` bits (for `x < 2 ^ 32` the two
disjoint parts combine by addition). -/
def rotl (x s : Nat) : Nat := x * 2 ^ s % 2 ^ 32 + x / 2 ^ (32 - s)

/-- Big-endian byte image of `n` on `k` bytes. -/
def beBytes (k n : Nat) : List Nat :=
  (List.range k).map fun i => n / 2 ^ (8 * (k - 1 - i)) % 256

/-- SHA-1 padding (models `crypto/sha1`): append 0x80, zero bytes up to
56 mod 64, then the bit length on 8 big-endian bytes. -/
def sha1pad (msg : List Nat) : List Nat :=
  msg ++ [128] ++ List.replicate ((119 - msg.length % 64) % 64) 0
    ++ beBytes 8 (8 * msg.length)

/-- The 16 big-endian 32-bit words of a 64-byte chunk. -/
def chunkWords (b : List Nat) : List Nat :=
  (List.range 16).map fun i =>
    b.getD (4 * i) 0 * 2 ^ 24 + b.getD (4 * i + 1) 0 * 2 ^ 16 +
      b.getD (4 * i + 2) 0 * 2 ^ 8 + b.getD (4 * i + 3) 0

/-- Message-schedule extension: append `k` further words, each the
1-bit left rotation of the xor of the words 3, 8, 14 and 16 places
back. -/
def schedW : Nat → List Nat → List Nat
  | 0, ws => ws
  | k + 1, ws =>
    schedW k (ws ++ [rotl (Nat.xor (Nat.xor (ws.getD (ws.length - 3) 0)
      (ws.getD (ws.length - 8) 0)) (Nat.xor (ws.getD (ws.length - 14) 0)
      (ws.getD (ws.length - 16) 0))) 1])

/-- SHA-1 round function for round `t`. -/
def sha1f (t b c d : Nat) : Nat :=
  if t < 20 then Nat.lor (Nat.land b c) (Nat.land (2 ^ 32 - 1 - b) d)
  else if t < 40 then Nat.xor (Nat.xor b c) d
  else if t < 60 then Nat.lor (Nat.lor (Nat.land b c) (Nat.land b d)) (Nat.land c d)
  else Nat.xor (Nat.xor b c) d

/-- SHA-1 round constant for round `t`. -/
def sha1k (t : Nat) : Nat :=
  if t < 20 then 0x5A827999
  else if t < 40 then 0x6ED9EBA1
  else if t < 60 then 0x8F1BBCDC
  else 0xCA62C1D6

/-- The five-word SHA-1 state. -/
structure Sha1State where
  a : Nat
  b : Nat
  c : Nat
  d : Nat
  e : Nat
  deriving DecidableEq, Repr

/-- One SHA-1 round. -/
def sha1round (ws : List Nat) (st : Sha1State) (t : Nat) : Sha1State :=
  ⟨w32 (rotl st.a 5 + sha1f t st.b st.c st.d + st.e + sha1k t + ws.getD t 0),
    st.a, rotl st.b 30, st.c, st.d⟩

/-- Compression of one 64-byte chunk into the running state. -/
def sha1chunk (h : Sha1State) (chunk : List Nat) : Sha1State :=
  let ws := schedW 64 (chunkWords chunk)
  let f := (List.range 80).foldl (sha1round ws) h
  ⟨w32 (h.a + f.a), w32 (h.b + f.b), w32 (h.c + f.c), w32 (h.d + f.d), w32 (h.e + f.e)⟩

/-- Fold over the successive 64-byte chunks of a padded message;
`k` is the number of chunks. -/
def sha1chunksGo : Nat → Sha1State → List Nat → Sha1State
  | 0, h, _ => h
  | k + 1, h, bs => sha1chunksGo k (sha1chunk h (bs.take 64)) (bs.drop 64)

/-- SHA-1 digest of a byte string (models `sha1.New` / `Write` / `Sum`):
20 bytes, big-endian words of the final state. -/
def sha1 (msg : List Nat) : List Nat :=
  let p := sha1pad msg
  let h := sha1chunksGo (p.length / 64) ⟨0x67452301, 0xEFCDAB89, 0x98BADCFE, 0x10325476, 0xC3D2E1F0⟩ p
  beBytes 4 h.a ++ beBytes 4 h.b ++ beBytes 4 h.c ++ beBytes 4 h.d ++ beBytes 4 h.e

/-- The standard base64 alphabet (models `encoding/base64.StdEncoding`). -/
def b64alphabet : List Char :=
  "ABCDEFGHIJKLMNOPQRSTUVWXYZabcdefghijklmnopqrstuvwxyz0123456789+/".data

/-- Character for a 6-bit value. -/
def b64char (n : Nat) : Char := b64alphabet.getD n 'A'

/-- Base64 encoding worker over 3-byte groups, with `=` padding on the
final partial group; `k` bounds the number of groups. -/
def base64Go : Nat → List Nat → List Char
  | 0, _ => []
  | _ + 1, [] => []
  | _ + 1, [b0] => [b64char (b0 / 4), b64char (b0 % 4 * 16), '=', '=']
  | _ + 1, [b0, b1] =>
    [b64char (b0 / 4), b64char (b0 % 4 * 16 + b1 / 16), b64char (b1 % 16 * 4), '=']
  | k + 1, b0 :: b1 :: b2 :: rest =>
    b64char (b0 / 4) :: b64char (b0 % 4 * 16 + b1 / 16) ::
      b64char (b1 % 16 * 4 + b2 / 64) :: b64char (b2 % 64) :: base64Go k rest

/-- Standard base64 encoding of a byte string. -/
def base64encode (bs : List Nat) : String :=
  String.mk (base64Go (bs.length / 3 + 1) bs)

/-- The fixed GUID from the source (`websocketGUID`). -/
def wsGUID : String := "258EAFA5-E914-47DA-95CA-C5AB0DC85B11"

/-- computeAcceptKey from the source: SHA-1 over the key bytes followed
by the GUID bytes (successive `h.Write` calls hash the concatenation),
base64-encoded. -/
def computeAcceptKey (key : String) : String :=
  base64encode (sha1 (strBytes key ++ strBytes wsGUID))

/-- The 101 response `upgradeWebSocket` writes back, as built by its
`fmt.Sprintf` (the format string split at the `%s`). -/
def upgradeResponse (key : String) : String :=
  "HTTP/1.1 101 Switching Protocols\r\n" ++ "Upgrade: websocket\r\n" ++
    "Connection: Upgrade\r\n" ++ "Sec-WebSocket-Accept: " ++ computeAcceptKey key ++
    "\r\n" ++ "\r\n"

set_option maxRecDepth 100000 in
/-- Known-answer check from RFC 6455 section 1.3: the sample nonce maps
to the documented accept token, validating the SHA-1 and base64
embeddings. -/
theorem computeAcceptKey_rfc6455 :
    computeAcceptKey "dGhlIHNhbXBsZSBub25jZQ==" = "s3pPLMBiTxaQ9kYGzzhZRbK+xOo=" := by
  decide

/-- Claim C7: for every handshake key, the server's upgrade response is
exactly the byte sequence
`HTTP/1.1 101 Switching Protocols\r\nUpgrade: websocket\r\nConnection: Upgrade\r\nSec-WebSocket-Accept: <token>\r\n\r\n`
where the token is the base64 encoding of the SHA-1 digest of the key
concatenated with the fixed GUID 258EAFA5-E914-47DA-95CA-C5AB0DC85B11. -/
theorem ws_handshake_response (key : String) :
    upgradeResponse key
      = "HTTP/1.1 101 Switching Protocols\r\nUpgrade: websocket\r\nConnection: Upgrade\r\nSec-WebSocket-Accept: "
        ++ base64encode (sha1 (strBytes (key ++ wsGUID))) ++ "\r\n\r\n" := by
  have hbytes : strBytes (key ++ wsGUID) = strBytes key ++ strBytes wsGUID := by
    simp [strBytes]
  rw [upgradeResponse, computeAcceptKey, hbytes]
  generalize base64encode (sha1 (strBytes key ++ strBytes wsGUID)) = tok
  have h1 : ("HTTP/1.1 101 Switching Protocols\r\n" ++ "Upgrade: websocket\r\n" ++
      "Connection: Upgrade\r\n" ++ "Sec-WebSocket-Accept: " : String)
      = "HTTP/1.1 101 Switching Protocols\r\nUpgrade: websocket\r\nConnection: Upgrade\r\nSec-WebSocket-Accept: " := by
    decide
  have h2 : (("\r\n" : String) ++ "\r\n") = "\r\n\r\n" := by decide
  rw [← h1, ← h2]
  simp [String.append_assoc]

end ToyChat
